import Mathlib

/-!
Verification development for the mcp-run policy-enforced command execution
broker (repository dstoc/cladding, crate mcp-run).

Definitions are shallow embeddings of the Rust source under
src/mcp-run/src and src/crates/mcp-run/src.  Effects of the surrounding
libraries and of the operating system — reading files, regular-expression
matching, SHA-256 hashing, base64 decoding, the Rego interpreter, the
filesystem seen by path resolution, the broker process environment — are
passed in as explicit oracle parameters, so every definition is an
executable function of its inputs.
-/

namespace McpRun

/-- Environment maps observed as key/value association lists, the iteration
view of the Rust BTreeMap used throughout policy validation. -/
abbrev EnvList := List (String × String)

/-- Minimal JSON value model, enough to express the policy evaluation input
object built by RegoPolicy::evaluate in src/mcp-run/src/policy.rs. -/
inductive Json where
  | str (s : String)
  | arr (xs : List Json)
  | obj (fields : List (String × Json))
  deriving Repr

/-- Keys of a JSON object (empty for non-objects). -/
def Json.objKeys : Json → List String
  | .obj fields => fields.map (fun kv => kv.1)
  | _ => []

/-- Field lookup in a JSON object (none for non-objects and absent keys). -/
def Json.objGet : Json → String → Option Json
  | .obj fields, key => (fields.find? (fun kv => kv.1 == key)).map (fun kv => kv.2)
  | _, _ => none

/-- Mirror of struct PolicyEvaluationInput (policy.rs lines 238-244). -/
structure PolicyEvaluationInput where
  command : String
  path : String
  args : List String
  env : EnvList

/-- Mirror of the serde_json input object literally built inside
RegoPolicy::evaluate (policy.rs lines 175-180): the fields are exactly
command, path, args and env, in that order. -/
def regoEvaluateInput (input : PolicyEvaluationInput) : Json :=
  .obj [("command", .str input.command),
        ("path", .str input.path),
        ("args", .arr (input.args.map .str)),
        ("env", .obj (input.env.map (fun kv => (kv.1, .str kv.2))))]

/-- Model of a compiled Rego policy artifact: the regorus engine is
abstracted as a function from the JSON input value to the boolean outcome
of eval_bool_query (error text on evaluation failure). -/
structure RegoArtifact where
  eval : Json → Except String Bool
  moduleCount : Nat

/-- Mirror of RegoPolicy::evaluate (policy.rs lines 173-186): build the
input object and hand it to the engine query. -/
def regoPolicyEvaluate (artifact : RegoArtifact) (input : PolicyEvaluationInput) :
    Except String Bool :=
  artifact.eval (regoEvaluateInput input)

/-- Mirror of enum PolicyMode (policy.rs lines 159-164). -/
inductive PolicyMode where
  | rego
  | legacyJson
  | denyAll
  deriving Repr, DecidableEq

/-- Mirror of enum ValidationError (policy.rs lines 143-157); the
pathResolutionFailed variant is referenced by executor.rs line 104. -/
inductive ValidationError where
  | policyUnavailable (details : String)
  | policyEvaluationFailed (command : String) (details : String)
  | commandNotAllowed (command : String)
  | ruleValidationFailed (command : String) (ruleCount : Nat) (details : String)
  | pathResolutionFailed (command : String) (details : String)
  deriving Repr, DecidableEq

/-- Mirror of enum HashAlgorithm (policy.rs lines 59-63). -/
inductive HashAlgorithm where
  | sha256
  deriving Repr, DecidableEq

/-- Mirror of enum ArgCheck (policy.rs lines 31-57). -/
inductive ArgCheck where
  | exact (value : String) (position : Option Nat) (required : Option Bool)
  | regex (pattern : String) (position : Option Nat) (required : Option Bool)
  | hash (value : String) (algorithm : Option HashAlgorithm)
      (position : Option Nat) (required : Option Bool)
  deriving Repr, DecidableEq

/-- Mirror of struct CommandRule (policy.rs lines 19-29). -/
structure CommandRule where
  command : String
  args : List ArgCheck
  env : List String
  description : Option String := none
  deriving Repr, DecidableEq

/-- Mirror of type Policy = Vec of CommandRule (policy.rs line 14). -/
abbrev Policy := List CommandRule

/-- Mirror of ArgCheck::position (policy.rs lines 66-72). -/
def ArgCheck.position : ArgCheck → Option Nat
  | .exact _ p _ => p
  | .regex _ p _ => p
  | .hash _ _ p _ => p

/-- Mirror of ArgCheck::required (policy.rs lines 74-80). -/
def ArgCheck.required : ArgCheck → Bool
  | .exact _ _ r => r.getD false
  | .regex _ _ r => r.getD false
  | .hash _ _ _ r => r.getD false

/-- Mirror of ArgCheck::expected_description (policy.rs lines 82-88). -/
def ArgCheck.expectedDescription : ArgCheck → String
  | .exact v _ _ => v
  | .regex _ _ _ => "regex"
  | .hash _ _ _ _ => "hash"

/-- Oracles for the library and filesystem effects used by legacy JSON
validation: regexIsMatch p a models Regex::new(p).is_ok_and(is_match(a));
readFile models std::fs::read; sha256Hex models the lowercase hex digest
format of sha2::Sha256. -/
structure PolicyOracles where
  regexIsMatch : String → String → Bool
  readFile : String → Option (List UInt8)
  sha256Hex : List UInt8 → String

/-- Mirror of check_file_sha256 (policy.rs lines 696-703). -/
def checkFileSha256 (o : PolicyOracles) (filePath expectedHash : String) : Bool :=
  match o.readFile filePath with
  | none => false
  | some bytes => o.sha256Hex bytes == expectedHash

/-- Mirror of check_arg (policy.rs lines 681-694). -/
def checkArg (o : PolicyOracles) (arg : String) : ArgCheck → Bool
  | .exact value _ _ => arg == value
  | .regex pattern _ _ => o.regexIsMatch pattern arg
  | .hash value algorithm _ _ =>
    match algorithm.getD .sha256 with
    | .sha256 => checkFileSha256 o arg value

/-- Inner loop of validate_rule over the checks for the argument at a given
index (policy.rs lines 636-649): a check applies when it is unpositioned or
positioned at this index, and the argument must satisfy some applicable
check. -/
def argMatched (o : PolicyOracles) (checks : List ArgCheck) (index : Nat) (arg : String) : Bool :=
  checks.any (fun check =>
    (match check.position with
     | some position => position == index
     | none => true) && checkArg o arg check)

/-- Mirror of the required-check satisfaction test in validate_rule
(policy.rs lines 661-665). -/
def requiredSatisfied (o : PolicyOracles) (args : List String) (check : ArgCheck) : Bool :=
  match check.position with
  | some position =>
    match args[position]? with
    | some value => checkArg o value check
    | none => false
  | none => args.any (fun value => checkArg o value check)

/-- Error text of an unsatisfied required check (policy.rs lines 667-675). -/
def requiredErrorMessage (check : ArgCheck) : String :=
  match check.position with
  | some position => "Missing required argument at position " ++ toString position
  | none => "Missing required argument matching: " ++ check.expectedDescription

/-- Mirror of validate_rule (policy.rs lines 628-679): empty check list
accepts only empty args; otherwise every argument must match an applicable
check (error at the first failure) and every required check must be
satisfied. -/
def validateRule (o : PolicyOracles) (args : List String) (checks : List ArgCheck) :
    Except String Unit :=
  if checks.isEmpty then
    if args.isEmpty then .ok ()
    else .error "Command does not allow arguments."
  else
    match args.enum.find? (fun p => !(argMatched o checks p.1 p.2)) with
    | some p => .error ("Argument not allowed at position " ++ toString p.1 ++ ": " ++ p.2)
    | none =>
      match checks.find? (fun check => check.required && !(requiredSatisfied o args check)) with
      | some check => .error (requiredErrorMessage check)
      | none => .ok ()

/-- Mirror of validate_env (policy.rs lines 618-626): every caller env key
must be in the allowlist; error at the first violation. -/
def validateEnv (env : EnvList) (allowedEnv : List String) : Except String Unit :=
  match env.find? (fun kv => !(allowedEnv.contains kv.1)) with
  | some kv => .error ("Environment variable not allowed: " ++ kv.1)
  | none => .ok ()

/-- Outcome of a single rule inside validate_legacy_invocation (policy.rs
line 596): argument checks, then env allowlist. -/
def ruleOutcome (o : PolicyOracles) (args : List String) (env : EnvList)
    (rule : CommandRule) : Except String Unit :=
  match validateRule o args rule.args with
  | .error e => .error e
  | .ok _ => validateEnv env rule.env

/-- Rule loop of validate_legacy_invocation (policy.rs lines 594-606): the
first passing rule accepts; otherwise the per-rule errors are joined into a
ruleValidationFailed report. -/
def tryRules (o : PolicyOracles) (command : String) (args : List String) (env : EnvList)
    (ruleCount : Nat) : List CommandRule → List String → Except ValidationError Unit
  | [], errors =>
    .error (.ruleValidationFailed command ruleCount (String.intercalate "\n- " errors))
  | rule :: rest, errors =>
    match ruleOutcome o args env rule with
    | .ok _ => .ok ()
    | .error e => tryRules o command args env ruleCount rest (errors ++ [e])

/-- Mirror of validate_legacy_invocation (policy.rs lines 579-607). -/
def validateLegacyInvocation (o : PolicyOracles) (policy : Policy) (command : String)
    (args : List String) (env : EnvList) : Except ValidationError Unit :=
  let rules := policy.filter (fun rule => rule.command == command)
  if rules.isEmpty then .error (.commandNotAllowed command)
  else tryRules o command args env rules.length rules []

/-- Mirror of struct PolicySnapshot (policy.rs lines 188-194). -/
structure PolicySnapshot where
  mode : PolicyMode
  rego : Option RegoArtifact
  legacyJson : Option Policy
  denyReason : Option String

/-- Mirror of PolicySnapshot::deny_all (policy.rs lines 197-204). -/
def PolicySnapshot.denyAll (details : String) : PolicySnapshot :=
  ⟨.denyAll, none, none, some details⟩

/-- Mirror of PolicySnapshot::from_rego (policy.rs lines 206-213). -/
def PolicySnapshot.fromRego (policy : RegoArtifact) : PolicySnapshot :=
  ⟨.rego, some policy, none, none⟩

/-- Mirror of PolicySnapshot::from_legacy_json (policy.rs lines 215-222). -/
def PolicySnapshot.fromLegacyJson (policy : Policy) : PolicySnapshot :=
  ⟨.legacyJson, none, some policy, none⟩

/-- Mirror of PolicyEngine::validate_invocation (policy.rs lines 312-370).
The filesystem-dependent resolve_executable_path call is supplied as its
result (resolveResult); note that resolution is performed before the
snapshot is consulted, and its failure produces a ruleValidationFailed
error regardless of the active snapshot. -/
def validateInvocation (o : PolicyOracles) (snapshot : PolicySnapshot)
    (resolveResult : Except String String)
    (command : String) (args : List String) (env : EnvList) : Except ValidationError Unit :=
  match resolveResult with
  | .error error =>
    .error (.ruleValidationFailed command 1 ("unable to resolve executable path: " ++ error))
  | .ok resolvedPath =>
    let evaluationInput : PolicyEvaluationInput :=
      { command := command, path := resolvedPath, args := args, env := env }
    match snapshot.mode with
    | .rego =>
      match snapshot.rego with
      | none => .error (.policyUnavailable "internal policy state mismatch")
      | some rego =>
        match regoPolicyEvaluate rego evaluationInput with
        | .ok true => .ok ()
        | .ok false => .error (.commandNotAllowed command)
        | .error details => .error (.policyEvaluationFailed command details)
    | .legacyJson =>
      match snapshot.legacyJson with
      | none => .error (.policyUnavailable "internal policy state mismatch")
      | some legacyJson => validateLegacyInvocation o legacyJson command args env
    | .denyAll =>
      .error (.policyUnavailable (snapshot.denyReason.getD
        "policy state is invalid and command execution is denied"))

/-- Mirror of struct PolicySources (policy.rs lines 225-229). -/
structure PolicySources where
  policyDir : Option String
  policyFile : Option String

/-- Oracles for the two filesystem loaders used by load_policy_snapshot:
loadRegoPolicyDir models load_rego_policy_dir (error on missing directory,
no .rego files, or any read/compile failure) and loadPolicy models
load_policy for the legacy JSON file, with errors rendered as display
strings. -/
structure LoadOracles where
  loadRegoPolicyDir : String → Except String RegoArtifact
  loadPolicy : String → Except String Policy

/-- Mirror of load_policy_snapshot (policy.rs lines 478-492). -/
def loadPolicySnapshot (lo : LoadOracles) (sources : PolicySources) :
    Except String PolicySnapshot :=
  match sources.policyDir with
  | some policyDir =>
    match lo.loadRegoPolicyDir policyDir with
    | .ok rego => .ok (PolicySnapshot.fromRego rego)
    | .error error => .error ("rego policy load failed: " ++ error)
  | none =>
    match sources.policyFile with
    | some policyFile =>
      match lo.loadPolicy policyFile with
      | .ok legacyJson => .ok (PolicySnapshot.fromLegacyJson legacyJson)
      | .error error => .error ("legacy JSON policy load failed (" ++ error ++ ")")
    | none => .error "no policy source configured (set POLICY_DIR or POLICY_FILE)"

/-- Snapshot installation shared by PolicyEngine::from_sources (policy.rs
lines 253-283) and PolicyEngine::reload (policy.rs lines 372-406): a
successful load installs the fresh snapshot, any load error installs a
deny-all snapshot carrying the error text. -/
def installSnapshot (loadResult : Except String PolicySnapshot) : PolicySnapshot :=
  match loadResult with
  | .ok snapshot => snapshot
  | .error error => PolicySnapshot.denyAll error

/-- View of the filesystem used by executable path resolution: for a path
string, whether it is a regular file, the outcome of reading its metadata
permission mode bits, and the outcome of std::fs::canonicalize on it. -/
structure FileMeta where
  isFile : Bool
  modeResult : Except String Nat
  canonical : Except String String

/-- Filesystem oracle for path resolution. -/
abbrev FileSystem := String → FileMeta

/-- Model of Path::join for a directory and a file name. -/
def joinPath (directory command : String) : String := directory ++ "/" ++ command

/-- PATH-walk of resolve_executable_path in policy.rs (lines 554-574): skip
entries that are not regular executable files, then CANONICALIZE the first
matching candidate and return the canonical path. -/
def policyPathLookup (fs : FileSystem) (dirs : List String) (command : String) :
    Except String String :=
  match dirs with
  | [] => .error ("'" ++ command ++ "' was not found on PATH")
  | directory :: rest =>
    let candidate := joinPath directory command
    if !(fs candidate).isFile then policyPathLookup fs rest command
    else
      match (fs candidate).modeResult with
      | .error error =>
        .error ("failed reading metadata for '" ++ candidate ++ "': " ++ error)
      | .ok mode =>
        if Nat.land mode 0o111 == 0 then policyPathLookup fs rest command
        else
          match (fs candidate).canonical with
          | .ok canonical => .ok canonical
          | .error error => .error ("failed resolving '" ++ candidate ++ "': " ++ error)

/-- Mirror of resolve_executable_path in src/mcp-run/src/policy.rs (lines
546-577): a command containing a path separator is canonicalized directly;
otherwise the PATH directories are walked and the first match is
canonicalized. pathDirs models splitting the PATH variable (none when PATH
is unset). -/
def policyResolveExecutablePath (fs : FileSystem) (pathDirs : Option (List String))
    (command : String) : Except String String :=
  if command.toList.contains '/' then
    match (fs command).canonical with
    | .ok canonical => .ok canonical
    | .error error => .error (command ++ " (" ++ error ++ ")")
  else
    match pathDirs with
    | none => .error "PATH is not set"
    | some dirs => policyPathLookup fs dirs command

/-- Candidate selection of the path-separator branch of
resolve_executable_path in executor.rs (lines 144-151): absolute commands
stand as given, relative ones are joined onto the current directory. -/
def executorCandidate (currentDir : Except String String) (command : String) :
    Except String String :=
  if command.toList.head? == some '/' then .ok command
  else
    match currentDir with
    | .ok cwd => .ok (joinPath cwd command)
    | .error error => .error ("failed resolving cwd: " ++ error)

/-- PATH-walk of resolve_executable_path in executor.rs (lines 171-192):
skip entries that are not regular executable files and return the FIRST
MATCHING CANDIDATE PATH ITSELF, without canonicalization, so a symlink
resolves to the link's own path string. -/
def executorPathLookup (fs : FileSystem) (dirs : List String) (command : String) :
    Except String String :=
  match dirs with
  | [] => .error ("'" ++ command ++ "' was not found on PATH")
  | directory :: rest =>
    let candidate := joinPath directory command
    if !(fs candidate).isFile then executorPathLookup fs rest command
    else
      match (fs candidate).modeResult with
      | .error error =>
        .error ("failed reading metadata for '" ++ candidate ++ "': " ++ error)
      | .ok mode =>
        if Nat.land mode 0o111 == 0 then executorPathLookup fs rest command
        else .ok candidate

/-- Mirror of resolve_executable_path in src/mcp-run/src/executor.rs (lines
143-193). -/
def executorResolveExecutablePath (fs : FileSystem) (currentDir : Except String String)
    (pathDirs : Option (List String)) (command : String) : Except String String :=
  if command.toList.contains '/' then
    match executorCandidate currentDir command with
    | .error error => .error error
    | .ok candidate =>
      if !(fs candidate).isFile then .error ("'" ++ candidate ++ "' is not a file")
      else
        match (fs candidate).modeResult with
        | .error error =>
          .error ("failed reading metadata for '" ++ candidate ++ "': " ++ error)
        | .ok mode =>
          if Nat.land mode 0o111 == 0 then .error ("'" ++ candidate ++ "' is not executable")
          else .ok candidate
  else
    match pathDirs with
    | none => .error "PATH is not set"
    | some dirs => executorPathLookup fs dirs command

/-- Environment maps observed through lookup, the view on which the
BTreeMap operations of build_command_env act. -/
abbrev EnvMap := String → Option String

/-- Lookup view of BTreeMap::insert. -/
def envInsert (m : EnvMap) (key value : String) : EnvMap :=
  fun k => if k == key then some value else m k

/-- Lookup view of BTreeMap::remove. -/
def envRemove (m : EnvMap) (key : String) : EnvMap :=
  fun k => if k == key then none else m k

/-- Lookup view of BTreeMap::extend: an overlay entry wins over the base. -/
def envExtend (m overlay : EnvMap) : EnvMap :=
  fun k =>
    match overlay k with
    | some value => some value
    | none => m k

/-- Conditional copy of one key from the broker process environment,
modelling `if let Ok(value) = std::env::var(key) { insert }`. -/
def envCopyFromBroker (broker : EnvMap) (m : EnvMap) (key : String) : EnvMap :=
  match broker key with
  | some value => envInsert m key value
  | none => m

/-- The keys removed unconditionally in step 4 of build_command_env
(executor.rs lines 210-219, identical in lib.rs lines 467-477). -/
def removedKeys : List String :=
  ["PATH", "http_proxy", "https_proxy", "no_proxy", "HTTP_PROXY", "HTTPS_PROXY", "NO_PROXY"]

/-- Mirror of build_command_env (src/mcp-run/src/executor.rs lines 195-251,
textually identical to src/mcp-run/src/lib.rs lines 452-508), with the
broker process environment supplied as an oracle: start empty; copy HOME
and LANG from the broker; merge the caller env over that; remove the
critical keys; re-insert PATH from the broker; re-insert the broker's
lowercase proxy variables and mirror each into its uppercase form. -/
def buildCommandEnv (broker userEnv : EnvMap) : EnvMap :=
  let e0 : EnvMap := fun _ => none
  let e1 := envCopyFromBroker broker e0 "HOME"
  let e2 := envCopyFromBroker broker e1 "LANG"
  let e3 := envExtend e2 userEnv
  let e4 := removedKeys.foldl envRemove e3
  let e5 := envCopyFromBroker broker e4 "PATH"
  let httpProxy := broker "http_proxy"
  let httpsProxy := broker "https_proxy"
  let noProxy := broker "no_proxy"
  let e6 := match httpProxy with
    | some value => envInsert e5 "http_proxy" value
    | none => e5
  let e7 := match httpsProxy with
    | some value => envInsert e6 "https_proxy" value
    | none => e6
  let e8 := match noProxy with
    | some value => envInsert e7 "no_proxy" value
    | none => e7
  let e9 := match httpProxy with
    | some value => envInsert e8 "HTTP_PROXY" value
    | none => e8
  let e10 := match httpsProxy with
    | some value => envInsert e9 "HTTPS_PROXY" value
    | none => e9
  match noProxy with
  | some value => envInsert e10 "NO_PROXY" value
  | none => e10

/-- Mirror of MAX_OUTPUT_BYTES (executor.rs line 13). -/
def MAX_OUTPUT_BYTES : Nat := 1024 * 1024

/-- Mirror of TRUNCATION_MARKER (executor.rs line 14). -/
def TRUNCATION_MARKER : String := "\n...truncated..."

/-- Loop of read_limited (executor.rs lines 260-279) over the successive
chunk reads of the stream: an empty read is EOF; once truncated, further
chunks are drained but discarded; otherwise a chunk is appended up to the
remaining capacity, setting the truncated flag when it overflows. -/
def readLimitedGo (chunks : List (List UInt8)) (output : List UInt8) (truncated : Bool) :
    List UInt8 × Bool :=
  match chunks with
  | [] => (output, truncated)
  | chunk :: rest =>
    if chunk.length == 0 then (output, truncated)
    else if truncated then readLimitedGo rest output truncated
    else
      let remaining := MAX_OUTPUT_BYTES - output.length
      if chunk.length ≤ remaining then readLimitedGo rest (output ++ chunk) truncated
      else readLimitedGo rest (output ++ chunk.take remaining) true

/-- Mirror of read_limited (executor.rs lines 253-282), over the list of
chunk reads the stream produces. -/
def readLimited (chunks : List (List UInt8)) : List UInt8 × Bool :=
  readLimitedGo chunks [] false

/-- Mirror of finalize_capture (executor.rs lines 284-290); the lossy UTF-8
conversion of String::from_utf8_lossy is supplied as an oracle. -/
def finalizeCapture (decodeLossy : List UInt8 → String) (capture : List UInt8 × Bool) :
    String :=
  let value := decodeLossy capture.1
  if capture.2 then value ++ TRUNCATION_MARKER else value

deriving instance DecidableEq for Except

/-- Mirror of enum RawStreamEvent (raw.rs lines 33-50) with chunk payloads
kept as raw bytes; the base64 encoding applied at serialization time is a
bijection and is abstracted away. -/
inductive RawStreamEvent where
  | start
  | stdout (data : List UInt8)
  | stderr (data : List UInt8)
  | exit (exitCode : Option Int)
  | error (message : String)
  deriving Repr, DecidableEq

/-- Mirror of enum OutputStreamKind (raw.rs lines 52-56). -/
inductive OutputStreamKind where
  | stdout
  | stderr
  deriving Repr, DecidableEq

/-- Mirror of OutputStreamKind::as_str (raw.rs lines 58-65). -/
def OutputStreamKind.asStr : OutputStreamKind → String
  | .stdout => "stdout"
  | .stderr => "stderr"

/-- Mirror of enum ReaderEvent (raw.rs lines 67-80). -/
inductive ReaderEvent where
  | chunk (stream : OutputStreamKind) (data : List UInt8)
  | done (stream : OutputStreamKind)
  | readError (stream : OutputStreamKind) (message : String)
  deriving Repr, DecidableEq

/-- One resolution of the select in stream_process_events (raw.rs lines
188-238): either the child wait branch completes (with the child's status,
whose code is none when signalled, or a wait error), or the reader channel
yields (none models the channel-closed arm). -/
inductive LoopInput where
  | wait (status : Except String (Option Int))
  | reader (event : Option ReaderEvent)
  deriving Repr, DecidableEq

/-- Mutable state of the stream_process_events loop (raw.rs lines
184-186). -/
structure LoopState where
  stdoutDone : Bool
  stderrDone : Bool
  exitCode : Option (Option Int)
  deriving Repr, DecidableEq

/-- Chunk-to-event translation inside the loop (raw.rs lines 204-209). -/
def chunkEvent : OutputStreamKind → List UInt8 → RawStreamEvent
  | .stdout, data => .stdout data
  | .stderr, data => .stderr data

/-- One iteration of the stream_process_events select loop: the events it
emits, the successor state, and whether the loop returns early (wait
failure or read failure). Client-disconnect aborts (send failures) do not
occur in a complete stream and are not scheduled here. -/
def stepLoop (state : LoopState) : LoopInput → List RawStreamEvent × LoopState × Bool
  | .wait (.ok code) => ([], { state with exitCode := some code }, false)
  | .wait (.error message) =>
    ([RawStreamEvent.error ("Runtime wait failure: " ++ message)], state, true)
  | .reader (some (.chunk stream data)) => ([chunkEvent stream data], state, false)
  | .reader (some (.done .stdout)) => ([], { state with stdoutDone := true }, false)
  | .reader (some (.done .stderr)) => ([], { state with stderrDone := true }, false)
  | .reader (some (.readError stream message)) =>
    ([RawStreamEvent.error ("Failed reading " ++ stream.asStr ++ ": " ++ message)],
     state, true)
  | .reader none => ([], { state with stdoutDone := true, stderrDone := true }, false)

/-- Loop exit condition of stream_process_events (raw.rs line 240). -/
def loopBreak (state : LoopState) : Bool :=
  state.exitCode.isSome && state.stdoutDone && state.stderrDone

/-- The select loop of stream_process_events (raw.rs lines 188-257) run
over a schedule of branch resolutions: on break, the exit event carrying
exit_code.unwrap_or(None) is emitted last. -/
def streamLoop (state : LoopState) : List LoopInput → List RawStreamEvent
  | [] => []
  | input :: rest =>
    let step := stepLoop state input
    if step.2.2 then step.1
    else if loopBreak step.2.1 then
      step.1 ++ [RawStreamEvent.exit (step.2.1.exitCode.getD none)]
    else step.1 ++ streamLoop step.2.1 rest

/-- Mirror of stream_process_events (raw.rs lines 157-266): the start event
is emitted first, then the select loop runs until break and emits exit. -/
def streamProcessEvents (inputs : List LoopInput) : List RawStreamEvent :=
  RawStreamEvent.start :: streamLoop ⟨false, false, none⟩ inputs

/-- Interleaving of two lists preserving the internal order of each. -/
inductive Interleaving : List α → List α → List α → Prop
  | nil : Interleaving [] [] []
  | left {x : α} {xs ys zs : List α} :
      Interleaving xs ys zs → Interleaving (x :: xs) ys (x :: zs)
  | right {x : α} {xs ys zs : List α} :
      Interleaving xs ys zs → Interleaving xs (x :: ys) (x :: zs)

/-- Interleaving of three lists preserving the internal order of each. -/
inductive Interleaving3 : List α → List α → List α → List α → Prop
  | nil : Interleaving3 [] [] [] []
  | first {x : α} {xs ys zs ws : List α} :
      Interleaving3 xs ys zs ws → Interleaving3 (x :: xs) ys zs (x :: ws)
  | second {x : α} {xs ys zs ws : List α} :
      Interleaving3 xs ys zs ws → Interleaving3 xs (x :: ys) zs (x :: ws)
  | third {x : α} {xs ys zs ws : List α} :
      Interleaving3 xs ys zs ws → Interleaving3 xs ys (x :: zs) (x :: ws)

/-- Mirror of struct RunNetworkToolInput (executor.rs lines 16-26). -/
structure RunNetworkToolInput where
  executable : String
  args : List String
  cwd : Option String
  env : Option EnvList

/-- Mirror of enum ToolError (executor.rs lines 37-53), with io and join
errors carried as display strings. -/
inductive ToolError where
  | validation (error : ValidationError)
  | spawn (message : String)
  | wait (message : String)
  | stdoutRead (message : String)
  | stderrRead (message : String)
  | stdoutJoin (message : String)
  | stderrJoin (message : String)
  deriving Repr, DecidableEq

/-- Display of ValidationError (the thiserror attributes in policy.rs lines
143-157; the pathResolutionFailed text follows executor.rs usage). -/
def validationErrorMessage : ValidationError → String
  | .policyUnavailable details => "Policy deny-all is active: " ++ details
  | .policyEvaluationFailed command details =>
    "Policy evaluation failed for '" ++ command ++ "': " ++ details
  | .commandNotAllowed command => "Command not allowed: " ++ command
  | .ruleValidationFailed command ruleCount details =>
    "Command validation failed for '" ++ command ++ "'. Tried " ++ toString ruleCount ++
      " rule(s):\n- " ++ details
  | .pathResolutionFailed command details =>
    "Failed to resolve executable path for '" ++ command ++ "': " ++ details

/-- Display of ToolError (the thiserror attributes in executor.rs lines
37-53). -/
def toolErrorMessage : ToolError → String
  | .validation error => validationErrorMessage error
  | .spawn message => "Failed to start subprocess: " ++ message
  | .wait message => "Failed to wait for subprocess: " ++ message
  | .stdoutRead message => "Failed to read stdout: " ++ message
  | .stderrRead message => "Failed to read stderr: " ++ message
  | .stdoutJoin message => "Failed to join stdout reader: " ++ message
  | .stderrJoin message => "Failed to join stderr reader: " ++ message

/-- Pipe availability of a spawned child (child.stdout.take /
child.stderr.take in raw.rs lines 112-133). -/
structure ChildPipes where
  stdoutPipe : Bool
  stderrPipe : Bool
  deriving Repr, DecidableEq

/-- Body of an HTTP response from the raw handler: an error JSON object
with a single error field, or the ND-JSON event stream. -/
inductive HttpBody where
  | errorJson (message : String)
  | ndjsonStream
  deriving Repr, DecidableEq

/-- Status code plus body of a raw handler response. -/
structure RawResponse where
  status : Nat
  body : HttpBody
  deriving Repr, DecidableEq

/-- Mirror of the pre-stream part of raw_handler (raw.rs lines 82-155):
JSON deserialization failure gives 400, a validation failure from
spawn_network_tool_process gives 403, any other spawn failure gives 500, a
missing stdout/stderr pipe gives 500, and otherwise the 200 ND-JSON stream
response is produced. The JSON parse and the spawn are supplied as their
results. -/
def rawHandler (payload : Except String RunNetworkToolInput)
    (spawnResult : RunNetworkToolInput → Except ToolError ChildPipes) : RawResponse :=
  match payload with
  | .error error => ⟨400, .errorJson ("Invalid request payload: " ++ error)⟩
  | .ok input =>
    match spawnResult input with
    | .error (ToolError.validation error) =>
      ⟨403, .errorJson (validationErrorMessage error)⟩
    | .error error => ⟨500, .errorJson (toolErrorMessage error)⟩
    | .ok child =>
      if !child.stdoutPipe then ⟨500, .errorJson "stdout pipe missing"⟩
      else if !child.stderrPipe then ⟨500, .errorJson "stderr pipe missing"⟩
      else ⟨200, .ndjsonStream⟩

/-- Mirror of LOCAL_FAILURE_EXIT_CODE (remote.rs line 12). -/
def LOCAL_FAILURE_EXIT_CODE : Int := 125

/-- Mirror of REMOTE_EXIT_CODE_UNAVAILABLE (remote.rs line 13). -/
def REMOTE_EXIT_CODE_UNAVAILABLE : Int := 1

/-- One line of the response stream as seen by the remote client after
serde parsing and base64 decoding: badJson models a line that fails to
parse as a RawStreamEvent; the Except payloads model the outcome of base64
decoding data_b64. -/
inductive RemoteLine where
  | badJson (message : String)
  | start
  | stdoutData (decoded : Except String (List UInt8))
  | stderrData (decoded : Except String (List UInt8))
  | exit (exitCode : Option Int)
  | runtimeError (message : String)
  deriving Repr, DecidableEq

/-- Mirror of enum RemoteClientError (remote.rs lines 15-43) restricted to
the variants reachable while processing the response stream, plus a
catch-all for the other local failures (argument parsing, URL validation,
missing env, request transport, server rejection); every variant maps to
exit code 125 in main. -/
inductive RemoteClientError where
  | protocol (message : String)
  | outputWrite (message : String)
  | remoteRuntime (message : String)
  | requestFailed (message : String)
  | serverRejected (status : Nat) (message : String)
  | otherLocal (message : String)
  deriving Repr, DecidableEq

/-- Replay state of process_stream (remote.rs lines 109-112): the saw_start
flag plus the bytes written so far to the local stdout and stderr (local
writes are modelled as always succeeding). -/
structure ReplayState where
  sawStart : Bool
  stdoutBytes : List UInt8
  stderrBytes : List UInt8
  deriving Repr, DecidableEq

/-- Mirror of handle_event_line (remote.rs lines 144-192): start sets the
flag; stdout/stderr decode and replay; exit requires saw_start and records
the code (1 when the remote code is absent); an error event aborts with a
remote runtime error. Returns the new state and the recorded exit code. -/
def handleEventLine (state : ReplayState) :
    RemoteLine → Except RemoteClientError (ReplayState × Option Int)
  | .badJson message => .error (.protocol ("invalid event JSON: " ++ message))
  | .start => .ok ({ state with sawStart := true }, none)
  | .stdoutData (.error error) =>
    .error (.protocol ("invalid stdout base64 payload: " ++ error))
  | .stdoutData (.ok bytes) =>
    .ok ({ state with stdoutBytes := state.stdoutBytes ++ bytes }, none)
  | .stderrData (.error error) =>
    .error (.protocol ("invalid stderr base64 payload: " ++ error))
  | .stderrData (.ok bytes) =>
    .ok ({ state with stderrBytes := state.stderrBytes ++ bytes }, none)
  | .exit remote =>
    if !state.sawStart then .error (.protocol "received exit event before start event")
    else .ok (state, some (remote.getD REMOTE_EXIT_CODE_UNAVAILABLE))
  | .runtimeError message => .error (.remoteRuntime message)

/-- Line loop of process_stream (remote.rs lines 114-141): lines are
handled in order; the first recorded exit code returns immediately; a
stream that ends without an exit event is a protocol error. -/
def processLines (state : ReplayState) : List RemoteLine → Except RemoteClientError Int
  | [] => .error (.protocol "stream ended before exit event")
  | line :: rest =>
    match handleEventLine state line with
    | .error e => .error e
    | .ok (state', recorded) =>
      match recorded with
      | some code => .ok code
      | none => processLines state' rest

/-- Mirror of process_stream (remote.rs lines 104-142) over the parsed
event lines of the response body. -/
def processStream (lines : List RemoteLine) : Except RemoteClientError Int :=
  processLines ⟨false, [], []⟩ lines

/-- Mirror of main in src/crates/mcp-run/src/bin/run-remote.rs (lines
3-15): a successful run exits with the returned code, any error exits with
LOCAL_FAILURE_EXIT_CODE. -/
def runRemoteMainExitCode (result : Except RemoteClientError Int) : Int :=
  match result with
  | .ok code => code
  | .error _ => LOCAL_FAILURE_EXIT_CODE

/-- Concrete oracle instance with all effects failing or empty. -/
def trivialOracles : PolicyOracles := ⟨fun _ _ => false, fun _ => none, fun _ => ""⟩

/-- Observer for whether a validation outcome is the policyUnavailable
error. -/
def resultIsPolicyUnavailable : Except ValidationError Unit → Bool
  | .error (.policyUnavailable _) => true
  | _ => false

/-- C1: the claim states that the input value handed to the policy query
contains a hash field; the input object built by RegoPolicy::evaluate has
no such field, at this and every other invocation. -/
theorem rego_input_hash_field_missing :
    ((regoEvaluateInput ⟨"ls", "/bin/ls", [], []⟩).objKeys.contains "hash") = false := by
  rfl

/-- C1 (amended): for every invocation, the input value handed to the
policy query has exactly the fields command, path, args and env (bound to
the invocation's command token, resolved path, arguments and environment),
and no hash field; RegoPolicy::evaluate queries the artifact at exactly
this input. -/
theorem rego_input_field_contract (input : PolicyEvaluationInput) :
    (regoEvaluateInput input).objKeys = ["command", "path", "args", "env"] ∧
    (regoEvaluateInput input).objGet "command" = some (.str input.command) ∧
    (regoEvaluateInput input).objGet "path" = some (.str input.path) ∧
    (regoEvaluateInput input).objGet "args" = some (.arr (input.args.map .str)) ∧
    (regoEvaluateInput input).objGet "env"
      = some (.obj (input.env.map (fun kv => (kv.1, .str kv.2)))) ∧
    (regoEvaluateInput input).objGet "hash" = none ∧
    ∀ artifact : RegoArtifact,
      regoPolicyEvaluate artifact input = artifact.eval (regoEvaluateInput input) :=
  ⟨rfl, rfl, rfl, rfl, rfl, rfl, fun _ => rfl⟩

/-- C2, counterexample: with the deny-all snapshot active, a validate call
whose executable path fails to resolve returns ruleValidationFailed, not
policyUnavailable. -/
theorem denyall_path_resolution_counterexample :
    resultIsPolicyUnavailable
      (validateInvocation trivialOracles (PolicySnapshot.denyAll "boom")
        (.error "no such file") "ghost" [] []) = false := by
  rfl

/-- C2 (amended): a failed snapshot load at construction or reload installs
the DenyAll snapshot carrying the load error; and while DenyAll is active,
every validate call whose executable path resolution succeeds returns
PolicyUnavailable with the recorded deny reason (a call whose resolution
fails returns ruleValidationFailed instead). -/
theorem denyall_install_and_validate :
    (∀ (lo : LoadOracles) (sources : PolicySources) (e : String),
       loadPolicySnapshot lo sources = .error e →
       installSnapshot (loadPolicySnapshot lo sources) = PolicySnapshot.denyAll e) ∧
    (∀ (o : PolicyOracles) (snapshot : PolicySnapshot) (path command : String)
       (args : List String) (env : EnvList),
       snapshot.mode = PolicyMode.denyAll →
       validateInvocation o snapshot (.ok path) command args env
         = .error (.policyUnavailable (snapshot.denyReason.getD
             "policy state is invalid and command execution is denied"))) := by
  constructor
  · intro lo sources e h
    simp [installSnapshot, h]
  · intro o snapshot path command args env h
    simp [validateInvocation, h]

/-- Load oracles whose every load attempt fails. -/
def failingLoadOracles : LoadOracles :=
  ⟨fun _ => .error "missing", fun _ => .error "missing"⟩

/-- C2, witness: concrete failing load installs deny-all, and a concrete
deny-all snapshot with successful resolution yields policyUnavailable. -/
theorem denyall_install_and_validate_witness :
    (loadPolicySnapshot failingLoadOracles ⟨some "/etc/policy", none⟩
       = .error "rego policy load failed: missing") ∧
    installSnapshot (loadPolicySnapshot failingLoadOracles ⟨some "/etc/policy", none⟩)
       = PolicySnapshot.denyAll "rego policy load failed: missing" ∧
    (PolicySnapshot.denyAll "load failed").mode = PolicyMode.denyAll ∧
    validateInvocation trivialOracles (PolicySnapshot.denyAll "load failed")
        (.ok "/bin/ls") "ls" [] []
      = .error (.policyUnavailable ((PolicySnapshot.denyAll "load failed").denyReason.getD
          "policy state is invalid and command execution is denied")) := by
  refine ⟨rfl, ?_, rfl, ?_⟩
  · exact denyall_install_and_validate.1 failingLoadOracles ⟨some "/etc/policy", none⟩ _ rfl
  · exact denyall_install_and_validate.2 trivialOracles _ "/bin/ls" "ls" [] [] rfl

/-- Filesystem with a single PATH entry that is an executable symlink:
/usr/local/bin/cargo canonicalizes to /opt/toolchain/real-cargo. -/
def symlinkFilesystem : FileSystem := fun path =>
  if path == "/usr/local/bin/cargo" then
    ⟨true, .ok 0o755, .ok "/opt/toolchain/real-cargo"⟩
  else ⟨false, .error "missing", .error "missing"⟩

/-- C4: at the failing input (PATH lookup of the bare name cargo whose
first matching entry is a symlink), the policy.rs resolver canonicalizes
and returns the symlink target, while the executor.rs resolver — which has
a regression test asserting symlink preservation and matches the spec —
returns the link's own path string. -/
theorem resolver_symlink_divergence :
    policyResolveExecutablePath symlinkFilesystem (some ["/usr/local/bin"]) "cargo"
        = .ok "/opt/toolchain/real-cargo" ∧
    executorResolveExecutablePath symlinkFilesystem (.ok "/workspace")
        (some ["/usr/local/bin"]) "cargo"
        = .ok "/usr/local/bin/cargo" := by
  refine ⟨?_, ?_⟩ <;> decide

/-- Observer for the validation variant of ToolError. -/
def ToolError.isValidation : ToolError → Bool
  | .validation _ => true
  | _ => false

/-- Observer for the error-JSON body shape. -/
def HttpBody.isErrorJson : HttpBody → Bool
  | .errorJson _ => true
  | .ndjsonStream => false

/-- C7: the raw handler returns 400 with an error JSON body when the
payload fails to deserialize, 403 with an error body on a policy
validation failure, 500 with an error body on any other spawn failure or a
missing pipe, and the 200 ND-JSON stream response otherwise. -/
theorem raw_handler_status_contract :
    (∀ (e : String) (spawn : RunNetworkToolInput → Except ToolError ChildPipes),
       rawHandler (.error e) spawn
         = ⟨400, .errorJson ("Invalid request payload: " ++ e)⟩) ∧
    (∀ (input : RunNetworkToolInput) (spawn : RunNetworkToolInput → Except ToolError ChildPipes)
       (ve : ValidationError), spawn input = .error (.validation ve) →
       rawHandler (.ok input) spawn = ⟨403, .errorJson (validationErrorMessage ve)⟩) ∧
    (∀ (input : RunNetworkToolInput) (spawn : RunNetworkToolInput → Except ToolError ChildPipes)
       (te : ToolError), spawn input = .error te → te.isValidation = false →
       rawHandler (.ok input) spawn = ⟨500, .errorJson (toolErrorMessage te)⟩) ∧
    (∀ (input : RunNetworkToolInput) (spawn : RunNetworkToolInput → Except ToolError ChildPipes)
       (child : ChildPipes), spawn input = .ok child →
       (child.stdoutPipe = false ∨ child.stderrPipe = false) →
       (rawHandler (.ok input) spawn).status = 500 ∧
       ((rawHandler (.ok input) spawn).body.isErrorJson = true)) ∧
    (∀ (input : RunNetworkToolInput) (spawn : RunNetworkToolInput → Except ToolError ChildPipes)
       (child : ChildPipes), spawn input = .ok child →
       child.stdoutPipe = true → child.stderrPipe = true →
       rawHandler (.ok input) spawn = ⟨200, .ndjsonStream⟩) := by
  refine ⟨fun e spawn => rfl, ?_, ?_, ?_, ?_⟩
  · intro input spawn ve h
    simp [rawHandler, h]
  · intro input spawn te h hv
    cases te <;> simp_all [rawHandler, ToolError.isValidation]
  · intro input spawn child h hp
    rcases child with ⟨so, se⟩
    cases so <;> cases se <;> simp_all [rawHandler, HttpBody.isErrorJson]
  · intro input spawn child h hso hse
    simp [rawHandler, h, hso, hse]

/-- C7, witness: concrete instantiations of every branch of the raw
handler contract. -/
theorem raw_handler_status_contract_witness :
    (rawHandler (.error "bad json") (fun _ => .ok ⟨true, true⟩)
       = ⟨400, .errorJson ("Invalid request payload: " ++ "bad json")⟩) ∧
    (rawHandler (.ok ⟨"echo", [], none, none⟩)
        (fun _ => .error (.validation (.commandNotAllowed "echo")))
       = ⟨403, .errorJson (validationErrorMessage (.commandNotAllowed "echo"))⟩) ∧
    (rawHandler (.ok ⟨"echo", [], none, none⟩) (fun _ => .error (.spawn "io"))
       = ⟨500, .errorJson (toolErrorMessage (.spawn "io"))⟩) ∧
    ((rawHandler (.ok ⟨"echo", [], none, none⟩) (fun _ => .ok ⟨false, true⟩)).status = 500) ∧
    (rawHandler (.ok ⟨"echo", [], none, none⟩) (fun _ => .ok ⟨true, true⟩)
       = ⟨200, .ndjsonStream⟩) := by
  refine ⟨raw_handler_status_contract.1 "bad json" _, ?_, ?_, ?_, ?_⟩
  · exact raw_handler_status_contract.2.1 _ _ _ rfl
  · exact raw_handler_status_contract.2.2.1 _ _ _ rfl rfl
  · exact (raw_handler_status_contract.2.2.2.1 _ _ _ rfl (Or.inl rfl)).1
  · exact raw_handler_status_contract.2.2.2.2 _ _ _ rfl rfl rfl

/-- C3: for every broker environment and caller environment, the child
environment satisfies: PATH comes from the broker (the caller's PATH is
dropped); each proxy variable, lowercase and uppercase, carries the
broker's lowercase value (the caller's values are dropped); HOME and LANG
are the broker's unless the caller supplies them; and every other
caller-supplied key keeps the caller's value. -/
theorem build_command_env_contract (broker userEnv : EnvMap) :
    buildCommandEnv broker userEnv "PATH" = broker "PATH" ∧
    buildCommandEnv broker userEnv "http_proxy" = broker "http_proxy" ∧
    buildCommandEnv broker userEnv "HTTP_PROXY" = broker "http_proxy" ∧
    buildCommandEnv broker userEnv "https_proxy" = broker "https_proxy" ∧
    buildCommandEnv broker userEnv "HTTPS_PROXY" = broker "https_proxy" ∧
    buildCommandEnv broker userEnv "no_proxy" = broker "no_proxy" ∧
    buildCommandEnv broker userEnv "NO_PROXY" = broker "no_proxy" ∧
    (buildCommandEnv broker userEnv "HOME"
      = match userEnv "HOME" with
        | some value => some value
        | none => broker "HOME") ∧
    (buildCommandEnv broker userEnv "LANG"
      = match userEnv "LANG" with
        | some value => some value
        | none => broker "LANG") ∧
    (∀ key value, removedKeys.contains key = false → userEnv key = some value →
       buildCommandEnv broker userEnv key = some value) := by
  have hgen : ∀ key value, removedKeys.contains key = false → userEnv key = some value →
      buildCommandEnv broker userEnv key = some value := by
    intro key value hrem huser
    simp only [removedKeys, List.contains_cons, List.contains_nil, Bool.or_eq_false_iff,
      beq_eq_false_iff_ne, ne_eq] at hrem
    rcases hh : broker "http_proxy" with _ | v1 <;>
      rcases hs : broker "https_proxy" with _ | v2 <;>
        rcases hn : broker "no_proxy" with _ | v3 <;>
          rcases hp : broker "PATH" with _ | v4 <;>
            simp [buildCommandEnv, removedKeys, envInsert, envRemove, envExtend,
              envCopyFromBroker, hh, hs, hn, hp, huser, hrem]
  refine ⟨?_, ?_, ?_, ?_, ?_, ?_, ?_, ?_, ?_, hgen⟩
  · rcases hh : broker "http_proxy" with _ | v1 <;>
      rcases hs : broker "https_proxy" with _ | v2 <;>
        rcases hn : broker "no_proxy" with _ | v3 <;>
          rcases hp : broker "PATH" with _ | v4 <;>
            simp [buildCommandEnv, removedKeys, envInsert, envRemove, envExtend,
              envCopyFromBroker, hh, hs, hn, hp]
  · rcases hh : broker "http_proxy" with _ | v1 <;>
      rcases hs : broker "https_proxy" with _ | v2 <;>
        rcases hn : broker "no_proxy" with _ | v3 <;>
          rcases hp : broker "PATH" with _ | v4 <;>
            simp [buildCommandEnv, removedKeys, envInsert, envRemove, envExtend,
              envCopyFromBroker, hh, hs, hn, hp]
  · rcases hh : broker "http_proxy" with _ | v1 <;>
      rcases hs : broker "https_proxy" with _ | v2 <;>
        rcases hn : broker "no_proxy" with _ | v3 <;>
          rcases hp : broker "PATH" with _ | v4 <;>
            simp [buildCommandEnv, removedKeys, envInsert, envRemove, envExtend,
              envCopyFromBroker, hh, hs, hn, hp]
  · rcases hh : broker "http_proxy" with _ | v1 <;>
      rcases hs : broker "https_proxy" with _ | v2 <;>
        rcases hn : broker "no_proxy" with _ | v3 <;>
          rcases hp : broker "PATH" with _ | v4 <;>
            simp [buildCommandEnv, removedKeys, envInsert, envRemove, envExtend,
              envCopyFromBroker, hh, hs, hn, hp]
  · rcases hh : broker "http_proxy" with _ | v1 <;>
      rcases hs : broker "https_proxy" with _ | v2 <;>
        rcases hn : broker "no_proxy" with _ | v3 <;>
          rcases hp : broker "PATH" with _ | v4 <;>
            simp [buildCommandEnv, removedKeys, envInsert, envRemove, envExtend,
              envCopyFromBroker, hh, hs, hn, hp]
  · rcases hh : broker "http_proxy" with _ | v1 <;>
      rcases hs : broker "https_proxy" with _ | v2 <;>
        rcases hn : broker "no_proxy" with _ | v3 <;>
          rcases hp : broker "PATH" with _ | v4 <;>
            simp [buildCommandEnv, removedKeys, envInsert, envRemove, envExtend,
              envCopyFromBroker, hh, hs, hn, hp]
  · rcases hh : broker "http_proxy" with _ | v1 <;>
      rcases hs : broker "https_proxy" with _ | v2 <;>
        rcases hn : broker "no_proxy" with _ | v3 <;>
          rcases hp : broker "PATH" with _ | v4 <;>
            simp [buildCommandEnv, removedKeys, envInsert, envRemove, envExtend,
              envCopyFromBroker, hh, hs, hn, hp]
  · rcases hU : userEnv "HOME" with _ | v0 <;>
      rcases hh : broker "http_proxy" with _ | v1 <;>
        rcases hs : broker "https_proxy" with _ | v2 <;>
          rcases hn : broker "no_proxy" with _ | v3 <;>
            rcases hp : broker "PATH" with _ | v4 <;>
              rcases hH : broker "HOME" with _ | v5 <;>
                rcases hL : broker "LANG" with _ | v6 <;>
                  simp [buildCommandEnv, removedKeys, envInsert, envRemove, envExtend,
                    envCopyFromBroker, hh, hs, hn, hp, hU, hH, hL]
  · rcases hU : userEnv "LANG" with _ | v0 <;>
      rcases hh : broker "http_proxy" with _ | v1 <;>
        rcases hs : broker "https_proxy" with _ | v2 <;>
          rcases hn : broker "no_proxy" with _ | v3 <;>
            rcases hp : broker "PATH" with _ | v4 <;>
              rcases hH : broker "HOME" with _ | v5 <;>
                rcases hL : broker "LANG" with _ | v6 <;>
                  simp [buildCommandEnv, removedKeys, envInsert, envRemove, envExtend,
                    envCopyFromBroker, hh, hs, hn, hp, hU, hH, hL]

/-- Broker environment used by the C3 witness. -/
def witnessBroker : EnvMap := fun k =>
  if k == "PATH" then some "/usr/bin"
  else if k == "HOME" then some "/root"
  else if k == "http_proxy" then some "http://proxy:3128"
  else none

/-- Caller environment used by the C3 witness. -/
def witnessUser : EnvMap := fun k =>
  if k == "PATH" then some "/caller/bin"
  else if k == "HOME" then some "/caller/home"
  else if k == "CUSTOM_USER_ENV" then some "allowed"
  else none

/-- C3, witness: the contract applied to a concrete broker and caller
environment. -/
theorem build_command_env_contract_witness :
    buildCommandEnv witnessBroker witnessUser "PATH" = witnessBroker "PATH" ∧
    (removedKeys.contains "CUSTOM_USER_ENV" = false ∧
     witnessUser "CUSTOM_USER_ENV" = some "allowed" ∧
     buildCommandEnv witnessBroker witnessUser "CUSTOM_USER_ENV" = some "allowed") := by
  refine ⟨(build_command_env_contract witnessBroker witnessUser).1, by decide, by decide, ?_⟩
  exact (build_command_env_contract witnessBroker witnessUser).2.2.2.2.2.2.2.2.2
    "CUSTOM_USER_ENV" "allowed" (by decide) (by decide)

/-- Once the truncated flag is set, the rest of the stream is drained but
the captured bytes no longer change. -/
theorem readLimitedGo_truncated (chunks : List (List UInt8)) (output : List UInt8) :
    readLimitedGo chunks output true = (output, true) := by
  induction chunks with
  | nil => rfl
  | cons c rest ih =>
    rw [readLimitedGo]
    by_cases h : (c.length == 0) = true
    · simp [h]
    · simp only [h]
      simpa using ih

/-- Unfolding of finalize_capture on an explicit capture pair. -/
theorem finalizeCapture_mk (decodeLossy : List UInt8 → String) (bytes : List UInt8)
    (truncated : Bool) :
    finalizeCapture decodeLossy (bytes, truncated)
      = if truncated then decodeLossy bytes ++ TRUNCATION_MARKER else decodeLossy bytes := by
  rfl

/-- Capture invariant of the read_limited loop: starting below the cap
with the truncated flag clear, the loop captures exactly the first
MAX_OUTPUT_BYTES bytes of the accumulated stream and flags truncation
exactly when the stream exceeds the cap. -/
theorem readLimitedGo_spec (chunks : List (List UInt8)) :
    ∀ output : List UInt8,
      (∀ c ∈ chunks, c ≠ []) → output.length ≤ MAX_OUTPUT_BYTES →
      readLimitedGo chunks output false
        = ((output ++ chunks.flatten).take MAX_OUTPUT_BYTES,
           decide (MAX_OUTPUT_BYTES < (output ++ chunks.flatten).length)) := by
  induction chunks with
  | nil =>
    intro output _ hlen
    simp [readLimitedGo, List.take_of_length_le hlen, Nat.not_lt.mpr hlen]
  | cons c rest ih =>
    intro output hne hlen
    have hc : c ≠ [] := hne c (by simp)
    have hclen : 0 < c.length := List.length_pos.mpr hc
    have hc0 : (c.length == 0) = false := by
      simp only [beq_eq_false_iff_ne, ne_eq]
      omega
    rw [readLimitedGo]
    simp only [hc0, Bool.false_eq_true, if_false]
    by_cases hfit : c.length ≤ MAX_OUTPUT_BYTES - output.length
    · rw [if_pos hfit]
      have hlen' : (output ++ c).length ≤ MAX_OUTPUT_BYTES := by
        simp only [List.length_append]
        omega
      rw [ih (output ++ c) (fun d hd => hne d (List.mem_cons_of_mem c hd)) hlen']
      simp [List.append_assoc]
    · rw [if_neg hfit]
      rw [readLimitedGo_truncated]
      have hrem : MAX_OUTPUT_BYTES - output.length - c.length = 0 := by omega
      refine Prod.ext ?_ ?_
      · show output ++ c.take (MAX_OUTPUT_BYTES - output.length)
          = ((output ++ (c :: rest).flatten).take MAX_OUTPUT_BYTES)
        simp only [List.flatten_cons]
        rw [List.take_append_eq_append_take, List.take_of_length_le hlen,
          List.take_append_eq_append_take, hrem, List.take_zero, List.append_nil]
      · show true = decide (MAX_OUTPUT_BYTES < (output ++ (c :: rest).flatten).length)
        rw [eq_comm, decide_eq_true_eq]
        simp only [List.flatten_cons, List.length_append]
        omega

/-- C5: in buffered mode, a stream whose bytes fit in 1 MiB is decoded
whole with no marker; a stream exceeding 1 MiB yields the decoding of
exactly its first 1048576 bytes followed by the literal truncation marker,
the remaining bytes being drained but discarded. The lossy UTF-8 decoding
of String::from_utf8_lossy is abstracted as the decodeLossy oracle, and
the stream is given as its non-empty chunk reads. -/
theorem buffered_capture_contract (decodeLossy : List UInt8 → String)
    (chunks : List (List UInt8)) (hne : ∀ c ∈ chunks, c ≠ []) :
    (chunks.flatten.length ≤ MAX_OUTPUT_BYTES →
       finalizeCapture decodeLossy (readLimited chunks) = decodeLossy chunks.flatten) ∧
    (MAX_OUTPUT_BYTES < chunks.flatten.length →
       finalizeCapture decodeLossy (readLimited chunks)
         = decodeLossy (chunks.flatten.take MAX_OUTPUT_BYTES) ++ TRUNCATION_MARKER) := by
  have hrun := readLimitedGo_spec chunks [] hne (by simp [MAX_OUTPUT_BYTES])
  rw [readLimited, hrun]
  simp only [List.nil_append]
  rw [finalizeCapture_mk]
  constructor
  · intro hle
    rw [decide_eq_false (Nat.not_lt.mpr hle)]
    simp [List.take_of_length_le hle]
  · intro hgt
    rw [decide_eq_true hgt]
    simp

/-- C5, witness: the contract applied at a concrete one-chunk stream and a
concrete decoder. -/
theorem buffered_capture_contract_witness :
    (∀ c ∈ [[(104 : UInt8), 105]], c ≠ []) ∧
    ([[(104 : UInt8), 105]].flatten.length ≤ MAX_OUTPUT_BYTES →
       finalizeCapture (fun _ => "hi") (readLimited [[(104 : UInt8), 105]])
         = (fun _ => "hi") [[(104 : UInt8), 105]].flatten) :=
  ⟨by decide,
   (buffered_capture_contract (fun _ => "hi") [[(104 : UInt8), 105]] (by decide)).1⟩

/-- Lines the replay loop consumes without raising an error and without
recording an exit code: the start marker and chunk events whose base64
payload decodes. -/
def isBenignLine : RemoteLine → Bool
  | .start => true
  | .stdoutData (.ok _) => true
  | .stderrData (.ok _) => true
  | _ => false

/-- Consuming a benign line block only advances the replay state; the
saw_start flag afterwards records whether a start line was seen. -/
theorem processLines_benign_append (suffix : List RemoteLine) :
    ∀ (pre : List RemoteLine) (state : ReplayState),
      (∀ l ∈ pre, isBenignLine l = true) →
      ∃ state' : ReplayState,
        processLines state (pre ++ suffix) = processLines state' suffix ∧
        (state'.sawStart = true ↔ (state.sawStart = true ∨ RemoteLine.start ∈ pre)) := by
  intro pre
  induction pre with
  | nil =>
    intro state _
    exact ⟨state, rfl, by simp⟩
  | cons l rest ih =>
    intro state hb
    have hl := hb l (by simp)
    have hrest : ∀ x ∈ rest, isBenignLine x = true :=
      fun x hx => hb x (List.mem_cons_of_mem l hx)
    cases l with
    | start =>
      obtain ⟨s', h1, h2⟩ := ih { state with sawStart := true } hrest
      refine ⟨s', ?_, ?_⟩
      · simpa [processLines, handleEventLine] using h1
      · simp [h2]
    | stdoutData d =>
      cases d with
      | error e => simp [isBenignLine] at hl
      | ok bytes =>
        obtain ⟨s', h1, h2⟩ := ih { state with stdoutBytes := state.stdoutBytes ++ bytes } hrest
        refine ⟨s', ?_, ?_⟩
        · simpa [processLines, handleEventLine] using h1
        · simp [h2]
    | stderrData d =>
      cases d with
      | error e => simp [isBenignLine] at hl
      | ok bytes =>
        obtain ⟨s', h1, h2⟩ := ih { state with stderrBytes := state.stderrBytes ++ bytes } hrest
        refine ⟨s', ?_, ?_⟩
        · simpa [processLines, handleEventLine] using h1
        · simp [h2]
    | badJson m => simp [isBenignLine] at hl
    | exit c => simp [isBenignLine] at hl
    | runtimeError m => simp [isBenignLine] at hl

/-- C8: the replay client's process exit code is the remote child's code
carried by the exit event (1 when the event carries null); a stream that
ends before any exit event is a protocol error; and every error path exits
with the local failure code 125. -/
theorem remote_exit_code_contract :
    (∀ (pre rest : List RemoteLine) (code : Option Int),
       (∀ l ∈ pre, isBenignLine l = true) → RemoteLine.start ∈ pre →
       processStream (pre ++ RemoteLine.exit code :: rest)
           = .ok (code.getD REMOTE_EXIT_CODE_UNAVAILABLE) ∧
       runRemoteMainExitCode (processStream (pre ++ RemoteLine.exit code :: rest))
           = code.getD REMOTE_EXIT_CODE_UNAVAILABLE) ∧
    (∀ lines : List RemoteLine, (∀ l ∈ lines, isBenignLine l = true) →
       processStream lines = .error (.protocol "stream ended before exit event") ∧
       runRemoteMainExitCode (processStream lines) = LOCAL_FAILURE_EXIT_CODE) ∧
    (∀ e : RemoteClientError,
       runRemoteMainExitCode (.error e) = LOCAL_FAILURE_EXIT_CODE) := by
  refine ⟨?_, ?_, fun e => rfl⟩
  · intro pre rest code hb hstart
    obtain ⟨s', h1, h2⟩ :=
      processLines_benign_append (RemoteLine.exit code :: rest) pre ⟨false, [], []⟩ hb
    have hss : s'.sawStart = true := h2.mpr (Or.inr hstart)
    have hout : processStream (pre ++ RemoteLine.exit code :: rest)
        = .ok (code.getD REMOTE_EXIT_CODE_UNAVAILABLE) := by
      simp only [processStream]
      rw [h1]
      simp [processLines, handleEventLine, hss]
    exact ⟨hout, by rw [hout]; rfl⟩
  · intro lines hb
    obtain ⟨s', h1, h2⟩ := processLines_benign_append [] lines ⟨false, [], []⟩ hb
    rw [List.append_nil] at h1
    have hout : processStream lines
        = .error (.protocol "stream ended before exit event") := by
      simp only [processStream]
      rw [h1]
      rfl
    exact ⟨hout, by rw [hout]; rfl⟩

/-- C8, witness: a concrete stream with an exit code, and a concrete
prematurely-ended stream. -/
theorem remote_exit_code_contract_witness :
    ((∀ l ∈ [RemoteLine.start], isBenignLine l = true) ∧
     RemoteLine.start ∈ [RemoteLine.start] ∧
     processStream ([RemoteLine.start] ++ RemoteLine.exit (some 7) :: [])
       = .ok ((some (7 : Int)).getD REMOTE_EXIT_CODE_UNAVAILABLE)) ∧
    ((∀ l ∈ ([] : List RemoteLine), isBenignLine l = true) ∧
     processStream ([] : List RemoteLine)
       = .error (.protocol "stream ended before exit event")) := by
  refine ⟨⟨by decide, by decide, ?_⟩, ⟨by decide, ?_⟩⟩
  · exact (remote_exit_code_contract.1 [RemoteLine.start] [] (some 7)
      (by decide) (by decide)).1
  · exact (remote_exit_code_contract.2.1 [] (by decide)).1

/-- C9, counterexample: a stdout chunk arriving before the start event is
replayed without any error, and the client exits with the remote code;
only an exit event is rejected when it precedes start. -/
theorem chunk_before_start_accepted :
    processStream [RemoteLine.stdoutData (.ok [104, 105]), RemoteLine.start,
        RemoteLine.exit (some 0)] = .ok 0 := by
  rfl

/-- C9 (amended): while processing the response event stream, an EXIT
event arriving before the start event raises the protocol error; stdout
and stderr chunks arriving before start are decoded and replayed without
error. -/
theorem exit_before_start_rejected (pre rest : List RemoteLine) (code : Option Int)
    (hb : ∀ l ∈ pre, isBenignLine l = true ∧ l ≠ RemoteLine.start) :
    processStream (pre ++ RemoteLine.exit code :: rest)
      = .error (.protocol "received exit event before start event") := by
  obtain ⟨s', h1, h2⟩ := processLines_benign_append (RemoteLine.exit code :: rest) pre
    ⟨false, [], []⟩ (fun l hl => (hb l hl).1)
  have hss : s'.sawStart = false := by
    cases hs : s'.sawStart
    · rfl
    · exfalso
      rcases h2.mp hs with h | h
      · simp at h
      · exact (hb _ h).2 rfl
  simp only [processStream]
  rw [h1]
  simp [processLines, handleEventLine, hss]

/-- C9, witness: the amended contract at a concrete stream whose exit
event precedes start. -/
theorem exit_before_start_rejected_witness :
    (∀ l ∈ [RemoteLine.stdoutData (.ok [104])],
        isBenignLine l = true ∧ l ≠ RemoteLine.start) ∧
    processStream ([RemoteLine.stdoutData (.ok [104])] ++ RemoteLine.exit (some 0) :: [])
      = .error (.protocol "received exit event before start event") :=
  ⟨by decide,
   exit_before_start_rejected [RemoteLine.stdoutData (.ok [104])] [] (some 0) (by decide)⟩

/-- Spec-level acceptance of a single legacy rule: an empty check list
accepts only argument-free invocations; otherwise every argument must
satisfy some applicable check (exact, regex or file-SHA-256, optionally
position-bound) and every required check must be satisfied; and every
caller-supplied env key must be in the rule's allowlist. -/
def RuleAccepts (o : PolicyOracles) (rule : CommandRule) (args : List String)
    (env : EnvList) : Prop :=
  (if rule.args.isEmpty then args = []
   else (∀ p ∈ args.enum, argMatched o rule.args p.1 p.2 = true) ∧
        (∀ check ∈ rule.args, check.required = true →
           requiredSatisfied o args check = true)) ∧
  (∀ kv ∈ env, rule.env.contains kv.1 = true)

/-- Characterization of validate_rule success. -/
theorem validateRule_ok_iff (o : PolicyOracles) (args : List String) (checks : List ArgCheck) :
    validateRule o args checks = .ok () ↔
      (if checks.isEmpty then args = []
       else (∀ p ∈ args.enum, argMatched o checks p.1 p.2 = true) ∧
            (∀ check ∈ checks, check.required = true →
               requiredSatisfied o args check = true)) := by
  unfold validateRule
  cases hempty : checks.isEmpty with
  | true =>
    simp only [hempty, if_true]
    cases hargs : args.isEmpty with
    | true => simp [List.isEmpty_iff.mp hargs]
    | false =>
      have : args ≠ [] := by
        intro h
        rw [h] at hargs
        exact Bool.noConfusion hargs
      simp [this]
  | false =>
    simp only [hempty, Bool.false_eq_true, if_false]
    cases h1 : args.enum.find? (fun p => !(argMatched o checks p.1 p.2)) with
    | some p =>
      have hmem := List.mem_of_find?_eq_some h1
      have hp := List.find?_some h1
      simp only [Bool.not_eq_true'] at hp
      constructor
      · intro h
        exact Except.noConfusion h
      · rintro ⟨hall, _⟩
        rw [hall p hmem] at hp
        exact Bool.noConfusion hp
    | none =>
      cases h2 : checks.find? (fun check => check.required && !(requiredSatisfied o args check)) with
      | some check =>
        have hmem := List.mem_of_find?_eq_some h2
        have hp := List.find?_some h2
        rw [Bool.and_eq_true] at hp
        obtain ⟨hreq, hsat⟩ := hp
        simp only [Bool.not_eq_true'] at hsat
        constructor
        · intro h
          exact Except.noConfusion h
        · rintro ⟨_, hall⟩
          rw [hall check hmem hreq] at hsat
          exact Bool.noConfusion hsat
      | none =>
        rw [List.find?_eq_none] at h1 h2
        constructor
        · intro _
          constructor
          · intro p hp
            have := h1 p hp
            simpa using this
          · intro check hc hreq
            have := h2 check hc
            simp only [Bool.and_eq_true, not_and, Bool.not_eq_true', Bool.not_eq_false] at this
            exact this hreq
        · intro _
          rfl

/-- Characterization of validate_env success. -/
theorem validateEnv_ok_iff (env : EnvList) (allowedEnv : List String) :
    validateEnv env allowedEnv = .ok () ↔ ∀ kv ∈ env, allowedEnv.contains kv.1 = true := by
  unfold validateEnv
  cases h : env.find? (fun kv => !(allowedEnv.contains kv.1)) with
  | some kv =>
    have hmem := List.mem_of_find?_eq_some h
    have hp := List.find?_some h
    simp only [Bool.not_eq_true'] at hp
    constructor
    · intro hh
      exact Except.noConfusion hh
    · intro hall
      rw [hall kv hmem] at hp
      exact Bool.noConfusion hp
  | none =>
    rw [List.find?_eq_none] at h
    constructor
    · intro _ kv hkv
      have := h kv hkv
      simpa using this
    · intro _
      rfl

/-- Characterization of a single rule's combined outcome. -/
theorem ruleOutcome_ok_iff (o : PolicyOracles) (args : List String) (env : EnvList)
    (rule : CommandRule) :
    ruleOutcome o args env rule = .ok () ↔
      (validateRule o args rule.args = .ok () ∧ validateEnv env rule.env = .ok ()) := by
  unfold ruleOutcome
  cases h : validateRule o args rule.args with
  | error e => simp [h]
  | ok u =>
    cases u
    simp

/-- Characterization of the rule loop: success exactly when some rule in
the list passes both its argument checks and its env allowlist. -/
theorem tryRules_ok_iff (o : PolicyOracles) (command : String) (args : List String)
    (env : EnvList) (ruleCount : Nat) (rules : List CommandRule) :
    ∀ errors : List String,
      tryRules o command args env ruleCount rules errors = .ok () ↔
        ∃ rule ∈ rules, ruleOutcome o args env rule = .ok () := by
  induction rules with
  | nil =>
    intro errors
    simp [tryRules]
  | cons rule rest ih =>
    intro errors
    rw [tryRules]
    cases h : ruleOutcome o args env rule with
    | ok u =>
      cases u
      simp [h]
    | error e =>
      rw [ih (errors ++ [e])]
      constructor
      · rintro ⟨r, hr, hout⟩
        exact ⟨r, List.mem_cons_of_mem rule hr, hout⟩
      · rintro ⟨r, hr, hout⟩
        rcases List.mem_cons.mp hr with hr | hr
        · rw [hr] at hout
          rw [hout] at h
          exact Except.noConfusion h
        · exact ⟨r, hr, hout⟩

/-- C10: with no policy directory configured but a policy file configured,
a successful legacy load selects the legacy JSON mode; and legacy
validation succeeds exactly when some rule whose command equals the
caller's command token accepts all arguments and the whole caller env
(rules being alternatives, and an empty check list accepting only
argument-free invocations). -/
theorem legacy_json_validation_contract :
    (∀ (lo : LoadOracles) (file : String) (policy : Policy),
       lo.loadPolicy file = .ok policy →
       loadPolicySnapshot lo ⟨none, some file⟩ = .ok (PolicySnapshot.fromLegacyJson policy) ∧
       (PolicySnapshot.fromLegacyJson policy).mode = PolicyMode.legacyJson) ∧
    (∀ (o : PolicyOracles) (policy : Policy) (command : String) (args : List String)
       (env : EnvList),
       validateLegacyInvocation o policy command args env = .ok () ↔
         ∃ rule ∈ policy, rule.command = command ∧ RuleAccepts o rule args env) := by
  constructor
  · intro lo file policy h
    exact ⟨by simp [loadPolicySnapshot, h], rfl⟩
  · intro o policy command args env
    unfold validateLegacyInvocation
    cases hempty : (policy.filter (fun rule => rule.command == command)).isEmpty with
    | true =>
      simp only [hempty, if_true]
      rw [List.isEmpty_iff] at hempty
      constructor
      · intro h
        exact Except.noConfusion h
      · rintro ⟨rule, hmem, hcmd, _⟩
        have hin : rule ∈ policy.filter (fun rule => rule.command == command) := by
          rw [List.mem_filter]
          exact ⟨hmem, by simp [hcmd]⟩
        rw [hempty] at hin
        exact absurd hin (List.not_mem_nil rule)
    | false =>
      simp only [hempty, Bool.false_eq_true, if_false]
      rw [tryRules_ok_iff]
      constructor
      · rintro ⟨rule, hmem, hout⟩
        rw [List.mem_filter] at hmem
        obtain ⟨hvr, hve⟩ := (ruleOutcome_ok_iff o args env rule).mp hout
        refine ⟨rule, hmem.1, by simpa using hmem.2, ?_⟩
        unfold RuleAccepts
        exact ⟨(validateRule_ok_iff o args rule.args).mp hvr,
               (validateEnv_ok_iff env rule.env).mp hve⟩
      · rintro ⟨rule, hmem, hcmd, haccepts⟩
        unfold RuleAccepts at haccepts
        refine ⟨rule, ?_, ?_⟩
        · rw [List.mem_filter]
          exact ⟨hmem, by simp [hcmd]⟩
        · rw [ruleOutcome_ok_iff]
          exact ⟨(validateRule_ok_iff o args rule.args).mpr haccepts.1,
                 (validateEnv_ok_iff env rule.env).mpr haccepts.2⟩

/-- Legacy policy with a single rule used by the C10 witness. -/
def witnessPolicy : Policy :=
  [{ command := "echo",
     args := [ArgCheck.exact "ok" (some 0) (some true)],
     env := ["TOKEN"],
     description := none }]

/-- Load oracles whose legacy file load succeeds with the witness
policy. -/
def witnessLoadOracles : LoadOracles :=
  ⟨fun _ => .error "unused", fun _ => .ok witnessPolicy⟩

/-- C10, witness: mode selection and the validation characterization at a
concrete policy, command, argument list and environment. -/
theorem legacy_json_validation_contract_witness :
    (witnessLoadOracles.loadPolicy "policy.json" = .ok witnessPolicy ∧
     loadPolicySnapshot witnessLoadOracles ⟨none, some "policy.json"⟩
       = .ok (PolicySnapshot.fromLegacyJson witnessPolicy)) ∧
    (validateLegacyInvocation trivialOracles witnessPolicy "echo" ["ok"]
        [("TOKEN", "abc")] = .ok () ↔
      ∃ rule ∈ witnessPolicy, rule.command = "echo" ∧
        RuleAccepts trivialOracles rule ["ok"] [("TOKEN", "abc")]) := by
  refine ⟨⟨rfl, ?_⟩, ?_⟩
  · exact (legacy_json_validation_contract.1 witnessLoadOracles "policy.json"
      witnessPolicy rfl).1
  · exact legacy_json_validation_contract.2 trivialOracles witnessPolicy "echo" ["ok"]
      [("TOKEN", "abc")]

/-- Remaining schedule items contributed by the stdout reader task: its
pending chunks in order, then its EOF marker; none once the marker was
consumed. -/
def outInputs : Option (List (List UInt8)) → List LoopInput
  | none => []
  | some chunks =>
    chunks.map (fun d => LoopInput.reader (some (.chunk .stdout d)))
      ++ [LoopInput.reader (some (.done .stdout))]

/-- Remaining schedule items contributed by the stderr reader task. -/
def errInputs : Option (List (List UInt8)) → List LoopInput
  | none => []
  | some chunks =>
    chunks.map (fun d => LoopInput.reader (some (.chunk .stderr d)))
      ++ [LoopInput.reader (some (.done .stderr))]

/-- Remaining schedule items contributed by the child wait branch. -/
def waitInputs (pending : Bool) (code : Option Int) : List LoopInput :=
  if pending then [LoopInput.wait (.ok code)] else []

theorem interleaving3_nil_inv {α : Type _} {A B C : List α}
    (h : Interleaving3 A B C []) : A = [] ∧ B = [] ∧ C = [] := by
  cases h
  exact ⟨rfl, rfl, rfl⟩

theorem interleaving3_cons_inv {α : Type _} {i : α} {A B C rest : List α}
    (h : Interleaving3 A B C (i :: rest)) :
    (∃ A', A = i :: A' ∧ Interleaving3 A' B C rest) ∨
    (∃ B', B = i :: B' ∧ Interleaving3 A B' C rest) ∨
    (∃ C', C = i :: C' ∧ Interleaving3 A B C' rest) := by
  cases h with
  | first h => exact Or.inl ⟨_, rfl, h⟩
  | second h => exact Or.inr (Or.inl ⟨_, rfl, h⟩)
  | third h => exact Or.inr (Or.inr ⟨_, rfl, h⟩)

theorem outInputs_eq_nil {r : Option (List (List UInt8))} (h : outInputs r = []) :
    r = none := by
  cases r with
  | none => rfl
  | some chunks => simp [outInputs] at h

theorem errInputs_eq_nil {r : Option (List (List UInt8))} (h : errInputs r = []) :
    r = none := by
  cases r with
  | none => rfl
  | some chunks => simp [errInputs] at h

theorem waitInputs_eq_nil {pending : Bool} {code : Option Int}
    (h : waitInputs pending code = []) : pending = false := by
  cases pending
  · rfl
  · simp [waitInputs] at h

/-- Run invariant of the select loop: from any mid-run state (each reader
either pending with its remaining chunks or already done, the wait branch
pending or already resolved with the final code, and at least one branch
still pending), a schedule interleaving the three remainders drives the
loop to emit exactly the pending chunk events — as an interleaving that
preserves each stream's order — followed by the exit event. -/
theorem streamLoop_run (code : Option Int) :
    ∀ (inputs : List LoopInput) (outRem errRem : Option (List (List UInt8)))
      (waitPending : Bool),
      Interleaving3 (outInputs outRem) (errInputs errRem) (waitInputs waitPending code)
        inputs →
      (outRem ≠ none ∨ errRem ≠ none ∨ waitPending = true) →
      ∃ body,
        streamLoop ⟨outRem.isNone, errRem.isNone,
            if waitPending then none else some code⟩ inputs
          = body ++ [RawStreamEvent.exit code] ∧
        Interleaving ((outRem.getD []).map RawStreamEvent.stdout)
          ((errRem.getD []).map RawStreamEvent.stderr) body := by
  intro inputs
  induction inputs with
  | nil =>
    intro outRem errRem waitPending hil hrun
    obtain ⟨hA, hB, hC⟩ := interleaving3_nil_inv hil
    rcases hrun with h | h | h
    · exact absurd (outInputs_eq_nil hA) h
    · exact absurd (errInputs_eq_nil hB) h
    · rw [waitInputs_eq_nil hC] at h
      exact Bool.noConfusion h
  | cons i rest ih =>
    intro outRem errRem waitPending hil hrun
    rcases interleaving3_cons_inv hil with ⟨A', hA, h3⟩ | ⟨B', hB, h3⟩ | ⟨C', hC, h3⟩
    · -- next item comes from the stdout reader stream
      cases outRem with
      | none => simp [outInputs] at hA
      | some chunks =>
        cases chunks with
        | nil =>
          simp only [outInputs, List.map_nil, List.nil_append, List.cons.injEq] at hA
          obtain ⟨hi, hA'⟩ := hA
          subst hi
          subst hA'
          cases waitPending with
          | true =>
            obtain ⟨body, h1, h2⟩ := ih none errRem true
              (by simpa [outInputs] using h3) (Or.inr (Or.inr rfl))
            refine ⟨body, ?_, ?_⟩
            · simp only [streamLoop, stepLoop, loopBreak, Option.isNone_some,
                Option.isNone_none, if_true] at h1 ⊢
              simpa using h1
            · simpa using h2
          | false =>
            cases errRem with
            | none =>
              refine ⟨[], ?_, ?_⟩
              · simp [streamLoop, stepLoop, loopBreak]
              · simpa using Interleaving.nil
            | some echunks =>
              obtain ⟨body, h1, h2⟩ := ih none (some echunks) false
                (by simpa [outInputs] using h3) (Or.inr (Or.inl (by simp)))
              refine ⟨body, ?_, ?_⟩
              · simp only [streamLoop, stepLoop, loopBreak, Option.isNone_some,
                  Option.isNone_none, if_false] at h1 ⊢
                simpa using h1
              · simpa using h2
        | cons d ds =>
          simp only [outInputs, List.map_cons, List.cons_append, List.cons.injEq] at hA
          obtain ⟨hi, hA'⟩ := hA
          subst hi
          obtain ⟨body, h1, h2⟩ := ih (some ds) errRem waitPending
            (by
              rw [← hA'] at h3
              simpa [outInputs] using h3)
            (Or.inl (by simp))
          refine ⟨RawStreamEvent.stdout d :: body, ?_, ?_⟩
          · simp only [Option.isNone_some] at h1
            simp [streamLoop, stepLoop, loopBreak, chunkEvent, h1]
          · have h2' : Interleaving (List.map RawStreamEvent.stdout ds)
                (List.map RawStreamEvent.stderr (errRem.getD [])) body := by
              simpa using h2
            simpa using Interleaving.left h2'
    · -- next item comes from the stderr reader stream
      cases errRem with
      | none => simp [errInputs] at hB
      | some chunks =>
        cases chunks with
        | nil =>
          simp only [errInputs, List.map_nil, List.nil_append, List.cons.injEq] at hB
          obtain ⟨hi, hB'⟩ := hB
          subst hi
          subst hB'
          cases waitPending with
          | true =>
            obtain ⟨body, h1, h2⟩ := ih outRem none true
              (by simpa [errInputs] using h3) (Or.inr (Or.inr rfl))
            refine ⟨body, ?_, ?_⟩
            · simp only [streamLoop, stepLoop, loopBreak, Option.isNone_some,
                Option.isNone_none, if_true] at h1 ⊢
              simpa using h1
            · simpa using h2
          | false =>
            cases outRem with
            | none =>
              refine ⟨[], ?_, ?_⟩
              · simp [streamLoop, stepLoop, loopBreak]
              · simpa using Interleaving.nil
            | some ochunks =>
              obtain ⟨body, h1, h2⟩ := ih (some ochunks) none false
                (by simpa [errInputs] using h3) (Or.inl (by simp))
              refine ⟨body, ?_, ?_⟩
              · simp only [streamLoop, stepLoop, loopBreak, Option.isNone_some,
                  Option.isNone_none, if_false] at h1 ⊢
                simpa using h1
              · simpa using h2
        | cons d ds =>
          simp only [errInputs, List.map_cons, List.cons_append, List.cons.injEq] at hB
          obtain ⟨hi, hB'⟩ := hB
          subst hi
          obtain ⟨body, h1, h2⟩ := ih outRem (some ds) waitPending
            (by
              rw [← hB'] at h3
              simpa [errInputs] using h3)
            (Or.inr (Or.inl (by simp)))
          refine ⟨RawStreamEvent.stderr d :: body, ?_, ?_⟩
          · simp only [Option.isNone_some] at h1
            simp [streamLoop, stepLoop, loopBreak, chunkEvent, h1]
          · have h2' : Interleaving (List.map RawStreamEvent.stdout (outRem.getD []))
                (List.map RawStreamEvent.stderr ds) body := by
              simpa using h2
            simpa using Interleaving.right h2'
    · -- next item is the completed child wait
      cases waitPending with
      | false => simp [waitInputs] at hC
      | true =>
        simp only [waitInputs, if_true, List.cons.injEq] at hC
        obtain ⟨hi, hC'⟩ := hC
        subst hi
        subst hC'
        cases outRem with
        | none =>
          cases errRem with
          | none =>
            refine ⟨[], ?_, ?_⟩
            · simp [streamLoop, stepLoop, loopBreak]
            · simpa using Interleaving.nil
          | some echunks =>
            obtain ⟨body, h1, h2⟩ := ih none (some echunks) false
              (by simpa [waitInputs] using h3) (Or.inr (Or.inl (by simp)))
            refine ⟨body, ?_, ?_⟩
            · simp only [streamLoop, stepLoop, loopBreak, Option.isNone_some,
                Option.isNone_none, if_false, if_true] at h1 ⊢
              simpa using h1
            · simpa using h2
        | some ochunks =>
          obtain ⟨body, h1, h2⟩ := ih (some ochunks) errRem false
            (by simpa [waitInputs] using h3) (Or.inl (by simp))
          refine ⟨body, ?_, ?_⟩
          · simp only [streamLoop, stepLoop, loopBreak, Option.isNone_some,
              Option.isNone_none, if_false, if_true] at h1 ⊢
            simpa using h1
          · simpa using h2

/-- C6: for every complete raw-endpoint schedule — an interleaving of the
stdout reader's chunks followed by its EOF, the stderr reader's chunks
followed by its EOF, and the child wait completion — the emitted event
stream is the start event, then the chunk events as an interleaving that
preserves each stream's order, and finally the exit event carrying the
child's code, emitted only after both readers reached EOF and the child
was waited. -/
theorem raw_stream_event_order (outChunks errChunks : List (List UInt8)) (code : Option Int)
    (inputs : List LoopInput)
    (hil : Interleaving3 (outInputs (some outChunks)) (errInputs (some errChunks))
      (waitInputs true code) inputs) :
    ∃ body,
      streamProcessEvents inputs
        = RawStreamEvent.start :: (body ++ [RawStreamEvent.exit code]) ∧
      Interleaving (outChunks.map RawStreamEvent.stdout)
        (errChunks.map RawStreamEvent.stderr) body := by
  obtain ⟨body, h1, h2⟩ := streamLoop_run code inputs (some outChunks) (some errChunks)
    true hil (Or.inr (Or.inr rfl))
  refine ⟨body, ?_, by simpa using h2⟩
  have h1' : streamLoop ⟨false, false, none⟩ inputs = body ++ [RawStreamEvent.exit code] := by
    simpa using h1
  simp [streamProcessEvents, h1']

/-- C6, witness: a concrete complete schedule with one stdout chunk and
one stderr chunk. -/
theorem raw_stream_event_order_witness :
    Interleaving3 (outInputs (some [[(1 : UInt8)]])) (errInputs (some [[(2 : UInt8)]]))
      (waitInputs true (some 0))
      [LoopInput.reader (some (.chunk .stdout [(1 : UInt8)])),
       LoopInput.reader (some (.done .stdout)),
       LoopInput.reader (some (.chunk .stderr [(2 : UInt8)])),
       LoopInput.reader (some (.done .stderr)),
       LoopInput.wait (.ok (some 0))] ∧
    ∃ body,
      streamProcessEvents
          [LoopInput.reader (some (.chunk .stdout [(1 : UInt8)])),
           LoopInput.reader (some (.done .stdout)),
           LoopInput.reader (some (.chunk .stderr [(2 : UInt8)])),
           LoopInput.reader (some (.done .stderr)),
           LoopInput.wait (.ok (some 0))]
        = RawStreamEvent.start :: (body ++ [RawStreamEvent.exit (some 0)]) ∧
      Interleaving ([[(1 : UInt8)]].map RawStreamEvent.stdout)
        ([[(2 : UInt8)]].map RawStreamEvent.stderr) body := by
  have hil : Interleaving3 (outInputs (some [[(1 : UInt8)]]))
      (errInputs (some [[(2 : UInt8)]])) (waitInputs true (some 0))
      [LoopInput.reader (some (.chunk .stdout [(1 : UInt8)])),
       LoopInput.reader (some (.done .stdout)),
       LoopInput.reader (some (.chunk .stderr [(2 : UInt8)])),
       LoopInput.reader (some (.done .stderr)),
       LoopInput.wait (.ok (some 0))] :=
    .first (.first (.second (.second (.third .nil))))
  exact ⟨hil, raw_stream_event_order [[(1 : UInt8)]] [[(2 : UInt8)]] (some 0) _ hil⟩

end McpRun
